import Mathlib

/-!
Verification development for the AEFR engine (`src/main.rs`).

The Rust source is shallowly embedded below.  Conventions used throughout:

* Rust `String` / `&str` values are modelled as `List Char`; the ASCII-range
  string operations used by the console parser (`trim`, `strip_prefix`,
  `splitn`, `split_whitespace`, `split`, `eq_ignore_ascii_case`,
  `replace("\x22", "")`) are re-implemented on `List Char`.  Whitespace is
  modelled as the ASCII whitespace characters, which covers every input the
  claims mention.
* `f32` values (timers, colors, coordinates) are modelled as `ℚ`; the
  saturating `as u8` cast is modelled by `toU8`.
* Fallible externals (file I/O, image decode, skeleton parse) are modelled by
  `Option`-valued fields of an environment record; the code's `?` / `ok()?`
  chains become `Option.bind` chains.
* The opaque rusty_spine animation state is modelled by the capability
  interface the spec gives it: track 0 holds an optional (name, loop) pair.
-/

namespace AEFR

/-- ASCII whitespace, modelling `char::is_whitespace` on the inputs of interest. -/
def isWs (c : Char) : Bool :=
  c == ' ' || c == '\t' || c == '\n' || c == '\r'

/-- Model of `str::trim`: drop leading and trailing whitespace. -/
def trim (s : List Char) : List Char :=
  ((s.dropWhile isWs).reverse.dropWhile isWs).reverse

/-- Model of `str::strip_prefix`: `some` of the remainder when `pre` is a
literal prefix of `s`, otherwise `none`. -/
def stripKw (pre s : List Char) : Option (List Char) :=
  if pre.isPrefixOf s then some (s.drop pre.length) else none

/-- Split at the first occurrence of `sep`, if any. -/
def splitFirst (sep : Char) : List Char → Option (List Char × List Char)
  | [] => none
  | c :: cs =>
    if c == sep then some ([], cs)
    else
      match splitFirst sep cs with
      | some (a, b) => some (c :: a, b)
      | none => none

/-- Model of `str::splitn(2, sep)`: at most two fields. -/
def splitn2 (sep : Char) (s : List Char) : List (List Char) :=
  match splitFirst sep s with
  | some (a, b) => [a, b]
  | none => [s]

/-- Worker for `splitWs`; `acc` is the current token, reversed. -/
def splitWsAux : List Char → List Char → List (List Char)
  | [], acc => if acc.isEmpty then [] else [acc.reverse]
  | c :: cs, acc =>
    if isWs c then
      if acc.isEmpty then splitWsAux cs [] else acc.reverse :: splitWsAux cs []
    else splitWsAux cs (c :: acc)

/-- Model of `str::split_whitespace`: whitespace-separated tokens, no empties. -/
def splitWs (s : List Char) : List (List Char) :=
  splitWsAux s []

/-- Model of `str::split(sep)`: every field, empties kept. -/
def splitSep (sep : Char) : List Char → List (List Char)
  | [] => [[]]
  | c :: cs =>
    if c == sep then [] :: splitSep sep cs
    else
      match splitSep sep cs with
      | t :: ts => (c :: t) :: ts
      | [] => [[c]]

/-- Decimal digit value of a character, if it is one. -/
def digit? (c : Char) : Option Nat :=
  if '0' ≤ c ∧ c ≤ '9' then some (c.toNat - '0'.toNat) else none

/-- Accumulate decimal digits; fails on any non-digit. -/
def parseDigitsAux : List Char → Nat → Option Nat
  | [], acc => some acc
  | c :: cs, acc =>
    match digit? c with
    | some d => parseDigitsAux cs (acc * 10 + d)
    | none => none

/-- Model of `str::parse::<usize>()`: optional leading plus sign, then one or
more decimal digits, value bounded by the 64-bit usize range. -/
def parseUsize (s : List Char) : Option Nat :=
  let body :=
    match s with
    | '+' :: t => t
    | t => t
  match body with
  | [] => none
  | _ :: _ =>
    match parseDigitsAux body 0 with
    | some v => if v < 2 ^ 64 then some v else none
    | none => none

/-- ASCII lower-casing of one character. -/
def lowerAscii (c : Char) : Char :=
  if 'A' ≤ c ∧ c ≤ 'Z' then Char.ofNat (c.toNat + 32) else c

/-- Model of `str::eq_ignore_ascii_case`. -/
def eqIC (a b : List Char) : Bool :=
  a.map lowerAscii == b.map lowerAscii

/-- The double-quote character (written via its code point). -/
def quoteChar : Char := Char.ofNat 34

/-- Model of `str::replace` that deletes every double quote from a path. -/
def stripQuotes (s : List Char) : List Char :=
  s.filter (fun c => !(c == quoteChar))

/-- A rusty_spine RGBA color, channels in `[0,1]` (modelled over `ℚ`). -/
structure SpineColor where
  r : ℚ
  g : ℚ
  b : ℚ
  a : ℚ
deriving DecidableEq

/-- One egui mesh vertex: screen position, UV, and an RGBA byte color. -/
structure MVertex where
  pos : ℚ × ℚ
  uv : ℚ × ℚ
  color : Nat × Nat × Nat × Nat
deriving DecidableEq

/-- The egui `Mesh` being filled by `paint`: a vertex list and a triangle
index list (indices into `vertices`). -/
structure MeshM where
  vertices : List MVertex
  indices : List Nat
deriving DecidableEq

/-- Model of Rust's saturating `f32 as u8` cast on our `ℚ` model: truncate and
clamp into `[0, 255]`. -/
def toU8 (x : ℚ) : Nat :=
  (min 255 (max 0 ⌊x⌋)).toNat

/-- A slot's attachment: a rigid region quad, a free-form mesh, or some other
attachment kind the renderer does not recognise. -/
inductive Attachment where
  | region (worldVerts uvs : List ℚ) (color : SpineColor)
  | meshAtt (worldVerts uvs : List ℚ) (tris : List Nat) (color : SpineColor)
  | other
deriving DecidableEq

/-- A draw-order slot: optional attachment plus the slot tint color. -/
structure SlotM where
  attachment : Option Attachment
  color : SpineColor
deriving DecidableEq

/-- Model of `SpineObject`: the shared skeleton definition's animation
catalog, the opaque animation state's track 0 (name, loop), the skeleton's
draw-ordered slots, and the screen transform. -/
structure SpineObjectM where
  animations : List (List Char)
  track0 : Option (List Char × Bool)
  drawOrder : List SlotM
  position : ℚ × ℚ
  scale : ℚ
deriving DecidableEq

/-- `SpineObject::set_animation_by_name` (main.rs lines 281-286): exact,
case-sensitive lookup in the animation catalog; on success replace track 0
with the requested loop flag and return `true`, otherwise leave the state
unchanged and return `false`. -/
def set_animation_by_name (self : SpineObjectM) (anim_name : List Char)
    (loop_anim : Bool) : SpineObjectM × Bool :=
  match self.animations.find? (fun a => decide (a = anim_name)) with
  | some anim => ({ self with track0 := some (anim, loop_anim) }, true)
  | none => (self, false)

/-- The vertex color computed at the top of `SpineObject::push_to_mesh`
(main.rs lines 331-336): each channel is `slot channel × attachment channel ×
255` cast with `as u8`, handed to `Color32::from_rgba_premultiplied` — note
the RGB channels are not multiplied by the alpha value. -/
def slotAttColor (slot : SlotM) (att_c : SpineColor) : Nat × Nat × Nat × Nat :=
  let s_c := slot.color
  (toU8 (s_c.r * att_c.r * 255), toU8 (s_c.g * att_c.g * 255),
   toU8 (s_c.b * att_c.b * 255), toU8 (s_c.a * att_c.a * 255))

/-- The vertex loop of `SpineObject::push_to_mesh` (main.rs lines 338-347):
`min (uvs.len/2) (w_v.len/2)` vertices, each with the Y-flip + scale +
translate coordinate transform and the shared color. -/
def pushedVertices (self : SpineObjectM) (w_v uvs : List ℚ)
    (color : Nat × Nat × Nat × Nat) : List MVertex :=
  let count := min (uvs.length / 2) (w_v.length / 2)
  (List.range count).map (fun i =>
    { pos := (w_v.getD (i * 2) 0 * self.scale + self.position.1,
              -(w_v.getD (i * 2 + 1) 0) * self.scale + self.position.2),
      uv := (uvs.getD (i * 2) 0, uvs.getD (i * 2 + 1) 0),
      color := color })

/-- `SpineObject::push_to_mesh` (main.rs lines 330-349): compute the slot ×
attachment color, record the running vertex count as the index offset, append
the transformed vertices, then append every triangle index shifted by the
offset. -/
def push_to_mesh (self : SpineObjectM) (mesh : MeshM) (w_v uvs : List ℚ)
    (tris : List Nat) (slot : SlotM) (att_c : SpineColor) : MeshM :=
  let color := slotAttColor slot att_c
  let idx_offset := mesh.vertices.length
  { vertices := mesh.vertices ++ pushedVertices self w_v uvs color,
    indices := mesh.indices ++ tris.map (fun idx => idx_offset + idx) }

/-- The fixed two-triangle quad index list `[0, 1, 2, 2, 3, 0]` used for
region attachments. -/
def regionTris : List Nat := [0, 1, 2, 2, 3, 0]

/-- The `world_vertices` buffer handed over for a region attachment: the code
resizes the buffer up to 8 floats (zero-filled) and slices `[0..8]`. -/
def regionSlice8 (wv : List ℚ) : List ℚ :=
  (wv ++ List.replicate 8 0).take 8

/-- One iteration of the slot loop in `SpineObject::paint` (main.rs lines
303-324): dispatch on the attachment kind; region and mesh attachments are
pushed, anything else contributes nothing. -/
def paintSlot (self : SpineObjectM) (mesh : MeshM) (slot : SlotM) : MeshM :=
  match slot.attachment with
  | some (.region wv uvs c) => push_to_mesh self mesh (regionSlice8 wv) uvs regionTris slot c
  | some (.meshAtt wv uvs tris c) => push_to_mesh self mesh wv uvs tris slot c
  | _ => mesh

/-- `SpineObject::paint` (main.rs lines 298-327): fold the draw-ordered slots
into one fresh mesh. -/
def paint (self : SpineObjectM) : MeshM :=
  self.drawOrder.foldl (paintSlot self) { vertices := [], indices := [] }

/-- The world-vertex buffer a slot's attachment hands to `push_to_mesh`
(empty for slots that contribute nothing). -/
def slotWorldVerts (slot : SlotM) : List ℚ :=
  match slot.attachment with
  | some (.region wv _ _) => regionSlice8 wv
  | some (.meshAtt wv _ _ _) => wv
  | _ => []

/-- `AefrScheduler::new` (main.rs lines 66-88): `available_parallelism` with
fallback 4, then the N-2 policy: `logic_cores - 2` when more than two cores,
otherwise 1. -/
def schedulerWorkerCount (availableParallelism : Option Nat) : Nat :=
  let logic_cores := availableParallelism.getD 4
  if logic_cores > 2 then logic_cores - 2 else 1

/-- The `AppCommand` message-bus variants (main.rs lines 143-170). -/
inductive AppCommand where
  | Dialogue (name affiliation content : List Char)
  | RequestLoad (slot_idx : Nat) (path : List Char)
  | LoadSuccess (slot_idx : Nat) (obj : SpineObjectM) (anims : List (List Char))
  | LoadBackground (path : List Char)
  | PlayBgm (path : List Char)
  | BgmReady (data : List Nat)
  | StopBgm
  | SetAnimation (slot_idx : Nat) (anim_name : List Char) (loop_anim : Bool)
  | Log (msg : List Char)
deriving DecidableEq

/-- Console keyword `LOAD ` (with its trailing space, as in the source). -/
def loadKw : List Char := "LOAD ".data

/-- Console keyword `ANIM `. -/
def animKw : List Char := "ANIM ".data

/-- Console keyword `BGM `. -/
def bgmKw : List Char := "BGM ".data

/-- Console keyword `STOP` (compared ignoring ASCII case). -/
def stopKw : List Char := "STOP".data

/-- Console keyword `TALK `. -/
def talkKw : List Char := "TALK ".data

/-- Console keyword `BG `. -/
def bgKw : List Char := "BG ".data

/-- Console keyword `HELP` (compared ignoring ASCII case). -/
def helpKw : List Char := "HELP".data

/-- The literal `true` compared against the optional third ANIM token. -/
def trueLit : List Char := "true".data

/-- The usage line the HELP branch prints locally. -/
def helpMsg : List Char := "Commands: LOAD, ANIM, BGM, BG, TALK".data

/-- The `LOAD <slot> <path>` branch (main.rs lines 426-432): split the
remainder in two at the first space, parse the slot index, strip quotes from
the path. -/
def parseLoadBranch (rest : List Char) : Option AppCommand :=
  match splitn2 ' ' rest with
  | [p0, p1] =>
    match parseUsize p0 with
    | some idx => some (.RequestLoad idx (stripQuotes p1))
    | none => none
  | _ => none

/-- The `ANIM <slot> <name> [flag]` branch (main.rs lines 433-442):
whitespace-split tokens, at least two required; the loop flag is
`parts.get(2).map(|s| s == "true").unwrap_or(true)`. -/
def parseAnimBranch (rest : List Char) : Option AppCommand :=
  match splitWs rest with
  | p0 :: p1 :: prest =>
    match parseUsize p0 with
    | some idx =>
      some (.SetAnimation idx p1
        (match prest.head? with
         | some s => s == trueLit
         | none => true))
    | none => none
  | _ => none

/-- The `TALK <name>|<affiliation>|<content>` branch (main.rs lines 447-451):
pipe-split, exactly three fields required. -/
def parseTalkBranch (rest : List Char) : Option AppCommand :=
  match splitSep '|' rest with
  | [p0, p1, p2] => some (.Dialogue p0 p1 p2)
  | _ => none

/-- Observable outcome of `AefrApp::parse_and_send_command`: the command (if
any) sent on the bus, and the log lines pushed locally, in order. -/
structure ParseOutcome where
  sent : Option AppCommand
  logs : List (List Char)
deriving DecidableEq

/-- `AefrApp::parse_and_send_command` (main.rs lines 418-458): trim the input,
bail on empty, echo it, then try the branches in source order.  `LOAD`,
`ANIM`, `BGM`, `TALK`, `BG` are matched by case-sensitive `strip_prefix`;
`STOP` and `HELP` by `eq_ignore_ascii_case`.  `HELP` sends nothing and prints
the usage line; anything unrecognised is silently dropped. -/
def parse_and_send_command (raw : List Char) : ParseOutcome :=
  let input := trim raw
  if input.isEmpty then { sent := none, logs := [] }
  else
    let echo := '>' :: ' ' :: input
    match stripKw loadKw input with
    | some rest => { sent := parseLoadBranch rest, logs := [echo] }
    | none =>
      match stripKw animKw input with
      | some rest => { sent := parseAnimBranch rest, logs := [echo] }
      | none =>
        match stripKw bgmKw input with
        | some path => { sent := some (.PlayBgm (stripQuotes path)), logs := [echo] }
        | none =>
          if eqIC input stopKw then { sent := some .StopBgm, logs := [echo] }
          else
            match stripKw talkKw input with
            | some rest => { sent := parseTalkBranch rest, logs := [echo] }
            | none =>
              match stripKw bgKw input with
              | some path => { sent := some (.LoadBackground (stripQuotes path)), logs := [echo] }
              | none =>
                if eqIC input helpKw then { sent := none, logs := [echo, helpMsg] }
                else { sent := none, logs := [echo] }

/-- Result of `Atlas::new_from_file`: the atlas page list (page names). -/
structure AtlasM where
  pages : List (List Char)
deriving DecidableEq

/-- Result of `image::open` followed by `to_rgba8`. -/
structure ImageM where
  width : Nat
  height : Nat
deriving DecidableEq

/-- Result of `read_skeleton_data_file`: declared animations and draw order. -/
structure SkelM where
  animations : List (List Char)
  drawOrder : List SlotM
deriving DecidableEq

/-- The outcomes of the fallible external steps inside one
`SpineObject::load_async` call: atlas parse, `atlas_path.parent()`, image
decode, skeleton parse.  `none` models the corresponding `ok()?` / `?`
failing. -/
structure LoadEnv where
  atlas : Option AtlasM
  parentDir : Option (List Char)
  image : Option ImageM
  skeletonData : Option SkelM
deriving DecidableEq

/-- `SpineObject::load_async` (main.rs lines 234-278): atlas, then first
page (no page is a failure), join with the parent dir, decode the image,
parse the skeleton; collect the animation names and default track 0 to the
first declared animation, looping.  Any step failing makes the whole call
return `none`. -/
def load_async (env : LoadEnv) : Option (SpineObjectM × List (List Char)) := do
  let atlas ← env.atlas
  let _page ← atlas.pages.head?
  let _dir ← env.parentDir
  let _img ← env.image
  let skel ← env.skeletonData
  let anim_names := skel.animations
  some ({ animations := skel.animations,
          track0 := skel.animations.head?.map (fun a => (a, true)),
          drawOrder := skel.drawOrder,
          position := (0, 0),
          scale := 1 / 2 }, anim_names)

/-- Prefix of the load-failure log line. -/
def loadFailPre : List Char := "Load failed: ".data

/-- The single command a `RequestLoad` background thread sends (main.rs lines
477-483): `LoadSuccess` on success, one `Log` line on failure. -/
def loadThreadResult (env : LoadEnv) (slot_idx : Nat) (path : List Char) :
    AppCommand :=
  match load_async env with
  | some (obj, anims) => .LoadSuccess slot_idx obj anims
  | none => .Log (loadFailPre ++ path)

/-- The rodio sink state of `AudioManager`: the bytes currently playing. -/
structure AudioMgrM where
  playing : Option (List Nat)
deriving DecidableEq

/-- The `AefrApp` state fields touched by command handling and the
typewriter (main.rs lines 356-382). -/
structure AppState where
  current_name : List Char
  current_affiliation : List Char
  target_chars : List Char
  visible_count : Nat
  type_timer : ℚ
  type_speed : ℚ
  characters : List (Option SpineObjectM)
  background : Option (List Char)
  audio_manager : Option AudioMgrM
  console_logs : List (List Char)
deriving DecidableEq

/-- A background thread spawned while handling a command. -/
inductive SpawnedTask where
  | loadTask (slot_idx : Nat) (path : List Char)
  | bgmTask (path : List Char)
deriving DecidableEq

/-- Outcomes of the fallible externals used while applying a command:
background-image decode and rodio's audio decoder. -/
structure FxEnv where
  bgImage : Option ImageM
  decodeOk : Bool
deriving DecidableEq

/-- Decimal digits of a number, for the log-line texts. -/
def natChars (n : Nat) : List Char := Nat.toDigits 10 n

/-- Log text `Loading slot `. -/
def loadingPre : List Char := "Loading slot ".data

/-- Log text `...`. -/
def dotsSuf : List Char := "...".data

/-- Log text `Slot `. -/
def slotPre : List Char := "Slot ".data

/-- Log text ` Loaded. Anims: `. -/
def loadedMid : List Char := " Loaded. Anims: ".data

/-- Log text ` -> `. -/
def arrowMid : List Char := " -> ".data

/-- Log text `Anim not found: `. -/
def animNotFoundPre : List Char := "Anim not found: ".data

/-- Log text `BG Loaded.`. -/
def bgLoadedMsg : List Char := "BG Loaded.".data

/-- Log text `Playing BGM.`. -/
def playingMsg : List Char := "Playing BGM.".data

/-- Log text `Audio read failed.`. -/
def audioReadFailMsg : List Char := "Audio read failed.".data

/-- One arm of the drain loop in `AefrApp::handle_async_events` (main.rs
lines 461-533): apply one received command to the state, returning the new
state and any background threads spawned. -/
def applyCommand (st : AppState) (fx : FxEnv) (cmd : AppCommand) :
    AppState × List SpawnedTask :=
  match cmd with
  | .Dialogue name affiliation content =>
    ({ st with current_name := name, current_affiliation := affiliation,
               target_chars := content, visible_count := 0 }, [])
  | .Log msg => ({ st with console_logs := st.console_logs ++ [msg] }, [])
  | .RequestLoad slot_idx path =>
    ({ st with console_logs :=
         st.console_logs ++ [loadingPre ++ natChars slot_idx ++ dotsSuf] },
     [.loadTask slot_idx path])
  | .LoadSuccess idx obj anims =>
    if idx < st.characters.length then
      let loaded := { obj with position := (200 + (idx : ℚ) * 220, 720) }
      ({ st with characters := st.characters.set idx (some loaded),
                 console_logs := st.console_logs ++
                   [slotPre ++ natChars idx ++ loadedMid ++ natChars anims.length] }, [])
    else (st, [])
  | .SetAnimation slot_idx anim_name loop_anim =>
    match st.characters.get? slot_idx with
    | some (some ch) =>
      let r := set_animation_by_name ch anim_name loop_anim
      if r.2 then
        ({ st with characters := st.characters.set slot_idx (some r.1),
                   console_logs := st.console_logs ++
                     [slotPre ++ natChars slot_idx ++ arrowMid ++ anim_name] }, [])
      else
        ({ st with characters := st.characters.set slot_idx (some r.1),
                   console_logs := st.console_logs ++ [animNotFoundPre ++ anim_name] }, [])
    | _ => (st, [])
  | .LoadBackground path =>
    match fx.bgImage with
    | some _ => ({ st with background := some path,
                           console_logs := st.console_logs ++ [bgLoadedMsg] }, [])
    | none => (st, [])
  | .PlayBgm path => (st, [.bgmTask path])
  | .BgmReady data =>
    match st.audio_manager with
    | some mgr =>
      let mgrNext := if fx.decodeOk then ({ playing := some data } : AudioMgrM) else mgr
      ({ st with audio_manager := some mgrNext,
                 console_logs := st.console_logs ++ [playingMsg] }, [])
    | none => (st, [])
  | .StopBgm =>
    match st.audio_manager with
    | some _ => ({ st with audio_manager := some { playing := none } }, [])
    | none => (st, [])

/-- The single command a `PlayBgm` background thread sends (main.rs lines
513-520): the raw bytes on success, one `Log` line on failure. -/
def bgmThreadResult (readResult : Option (List Nat)) : AppCommand :=
  match readResult with
  | some data => .BgmReady data
  | none => .Log audioReadFailMsg

/-- The typewriter section of `AefrApp::update` (main.rs lines 543-549): while
text remains, add `dt` to the timer; once the timer exceeds the reveal
interval, show one more character and reset the timer to zero. -/
def typewriter_update (st : AppState) (dt : ℚ) : AppState :=
  if st.visible_count < st.target_chars.length then
    let timer := st.type_timer + dt
    if st.type_speed < timer then
      { st with visible_count := st.visible_count + 1, type_timer := 0 }
    else { st with type_timer := timer }
  else st

/-- The typewriter run over a sequence of frame times. -/
def typewriterRun (st : AppState) (dts : List ℚ) : AppState :=
  dts.foldl typewriter_update st

/-- A concrete app state: two-character dialogue target, fresh timer, the
0.03 s reveal interval from `AefrApp::new`, five empty slots. -/
def twState : AppState :=
  { current_name := "System".data,
    current_affiliation := "AEFR".data,
    target_chars := "Hi".data,
    visible_count := 0,
    type_timer := 0,
    type_speed := 3 / 100,
    characters := [none, none, none, none, none],
    background := none,
    audio_manager := none,
    console_logs := [] }

/-- A concrete entity whose catalog holds `Idle` and `Walk`. -/
def idleObj : SpineObjectM :=
  { animations := ["Idle".data, "Walk".data],
    track0 := some ("Walk".data, true),
    drawOrder := [],
    position := (0, 0),
    scale := 1 / 2 }

/-- Opaque white tint. -/
def whiteCol : SpineColor := { r := 1, g := 1, b := 1, a := 1 }

/-- White tint at half alpha. -/
def halfAlphaCol : SpineColor := { r := 1, g := 1, b := 1, a := 1 / 2 }

/-- A concrete 4-vertex world-vertex buffer. -/
def quadWV : List ℚ := [1, 2, 3, 4, 5, 6, 7, 8]

/-- Unit-square UV layout of a region attachment. -/
def quadUV : List ℚ := [0, 0, 1, 0, 1, 1, 0, 1]

/-- A region slot with white slot and attachment tints. -/
def regionSlot : SlotM :=
  { attachment := some (.region quadWV quadUV whiteCol), color := whiteCol }

/-- A region slot whose slot tint has alpha one half. -/
def halfSlot : SlotM :=
  { attachment := some (.region quadWV quadUV whiteCol), color := halfAlphaCol }

/-- A concrete entity containing the white region slot. -/
def demoObj : SpineObjectM :=
  { animations := [], track0 := none, drawOrder := [regionSlot],
    position := (10, 20), scale := 1 }

/-- A one-vertex mesh-attachment slot with white tints. -/
def demoMeshSlot : SlotM :=
  { attachment := some (.meshAtt [2, 3] [0, 0] [0] whiteCol), color := whiteCol }

/-- A one-vertex mesh-attachment slot whose slot tint has alpha one half. -/
def halfMeshSlot : SlotM :=
  { attachment := some (.meshAtt [2, 3] [0, 0] [0] whiteCol), color := halfAlphaCol }

/-- A placeholder vertex. -/
def vtx0 : MVertex := { pos := (0, 0), uv := (0, 0), color := (255, 255, 255, 255) }

/-- A mesh already holding two vertices and two indices. -/
def mesh2 : MeshM := { vertices := [vtx0, vtx0], indices := [0, 1] }

/-- The fresh mesh `paint` starts from. -/
def emptyMesh : MeshM := { vertices := [], indices := [] }

/-- A load environment whose very first step (atlas parse) fails. -/
def failEnv : LoadEnv :=
  { atlas := none, parentDir := none, image := none, skeletonData := none }

/-- An effects environment with no background image and a failing decoder. -/
def fxNone : FxEnv := { bgImage := none, decodeOk := false }

/-- Decomposing a successful `stripKw`. -/
theorem stripKw_some {pre s r : List Char} (h : stripKw pre s = some r) :
    pre.isPrefixOf s = true ∧ r = s.drop pre.length := by
  unfold stripKw at h
  split at h
  · exact ⟨by assumption, (Option.some.inj h).symm⟩
  · exact absurd h (by simp)

/-- `parseLoadBranch` can only produce a `RequestLoad` command. -/
theorem parseLoadBranch_shape (rest : List Char) (c : AppCommand)
    (h : parseLoadBranch rest = some c) : ∃ i p, c = .RequestLoad i p := by
  unfold parseLoadBranch at h
  split at h
  · split at h
    · exact ⟨_, _, (Option.some.inj h).symm⟩
    · exact absurd h (by simp)
  · exact absurd h (by simp)

/-- `parseAnimBranch` can only produce a `SetAnimation` command. -/
theorem parseAnimBranch_shape (rest : List Char) (c : AppCommand)
    (h : parseAnimBranch rest = some c) : ∃ i n b, c = .SetAnimation i n b := by
  unfold parseAnimBranch at h
  split at h
  · split at h
    · exact ⟨_, _, _, (Option.some.inj h).symm⟩
    · exact absurd h (by simp)
  · exact absurd h (by simp)

/-- `parseTalkBranch` can only produce a `Dialogue` command. -/
theorem parseTalkBranch_shape (rest : List Char) (c : AppCommand)
    (h : parseTalkBranch rest = some c) : ∃ a b c3, c = .Dialogue a b c3 := by
  unfold parseTalkBranch at h
  split at h
  · exact ⟨_, _, _, (Option.some.inj h).symm⟩
  · exact absurd h (by simp)

end AEFR

namespace AEFR

/-- Claim C2: for every reported logical core count `n`, the worker pool size
is `max 1 (n - 2)` — that is `n - 2` when `n > 2` and `1` otherwise — hence
8 cores give 6 workers, 1 core gives 1 worker, and the pool is never empty. -/
theorem aefr_C2_thm : ∀ n : Nat,
    schedulerWorkerCount (some n) = max 1 (n - 2) ∧
    (2 < n → schedulerWorkerCount (some n) = n - 2) ∧
    (n ≤ 2 → schedulerWorkerCount (some n) = 1) ∧
    0 < schedulerWorkerCount (some n) ∧
    schedulerWorkerCount (some 8) = 6 ∧
    schedulerWorkerCount (some 1) = 1 := by
  intro n
  have hval : ∀ m : Nat, schedulerWorkerCount (some m) = if 2 < m then m - 2 else 1 :=
    fun m => rfl
  refine ⟨?_, ?_, ?_, ?_, by rw [hval]; norm_num, by rw [hval]; norm_num⟩
  · rw [hval]; split <;> omega
  · intro h2; rw [hval, if_pos h2]
  · intro h2; rw [hval, if_neg (by omega)]
  · rw [hval]; split <;> omega

/-- Witness for C2's conditional conjuncts at the spec's example inputs. -/
theorem aefr_C2_witness :
    schedulerWorkerCount (some 8) = 8 - 2 ∧ schedulerWorkerCount (some 1) = 1 :=
  ⟨(aefr_C2_thm 8).2.1 (by norm_num), (aefr_C2_thm 1).2.2.1 (by norm_num)⟩

/-- Claim C3: `set_animation_by_name` returns `true` and replaces track 0
with the requested loop flag exactly when the name occurs (case-sensitively)
in the shared catalog; otherwise it returns `false` and leaves the entity
unchanged. -/
theorem aefr_C3_thm : ∀ (obj : SpineObjectM) (name : List Char) (lp : Bool),
    (name ∈ obj.animations →
      set_animation_by_name obj name lp
        = ({ obj with track0 := some (name, lp) }, true)) ∧
    (name ∉ obj.animations →
      set_animation_by_name obj name lp = (obj, false)) := by
  intro obj name lp
  refine ⟨fun hmem => ?_, fun hnmem => ?_⟩
  · unfold set_animation_by_name
    rcases h : obj.animations.find? (fun a => decide (a = name)) with _ | found
    · rw [List.find?_eq_none] at h
      exact absurd (by simp : decide (name = name) = true) (h name hmem)
    · have hf := List.find?_some h
      rw [decide_eq_true_eq] at hf
      subst hf
      rfl
  · unfold set_animation_by_name
    have h : obj.animations.find? (fun a => decide (a = name)) = none := by
      rw [List.find?_eq_none]
      intro x hx
      simp only [decide_eq_true_eq]
      exact fun e => hnmem (e ▸ hx)
    rw [h]

/-- Witness for C3 at a concrete catalog containing `Idle` but not `Nope`. -/
theorem aefr_C3_witness :
    set_animation_by_name idleObj ("Idle".data) true
      = ({ idleObj with track0 := some ("Idle".data, true) }, true) ∧
    set_animation_by_name idleObj ("Nope".data) true = (idleObj, false) :=
  ⟨(aefr_C3_thm idleObj ("Idle".data) true).1 (by decide),
   (aefr_C3_thm idleObj ("Nope".data) true).2 (by decide)⟩

/-- Claim C8: whenever an `ANIM` line parses to a `SetAnimation`, its loop
flag is `true` when the third whitespace token is omitted and otherwise is
the case-sensitive comparison of that token with the literal `true`. -/
theorem aefr_C8_thm : ∀ (rest : List Char) (i : Nat) (n : List Char) (b : Bool),
    parseAnimBranch rest = some (.SetAnimation i n b) →
    ((splitWs rest).get? 2 = none → b = true) ∧
    (∀ t, (splitWs rest).get? 2 = some t → b = (t == trueLit)) := by
  intro rest i n b h
  unfold parseAnimBranch at h
  rcases hs : splitWs rest with _ | ⟨p0, _ | ⟨p1, prest⟩⟩ <;> rw [hs] at h
  · exact absurd h (by simp)
  · exact absurd h (by simp)
  · have h2 : (match parseUsize p0 with
      | some idx => some (AppCommand.SetAnimation idx p1
          (match prest.head? with
           | some s => s == trueLit
           | none => true))
      | none => none) = some (AppCommand.SetAnimation i n b) := h
    rcases hu : parseUsize p0 with _ | idx <;> rw [hu] at h2
    · exact absurd h2 (by simp)
    · have he := Option.some.inj h2
      injection he with e1 e2 e3
      constructor
      · intro hnone
        cases prest with
        | nil => rw [← e3]; rfl
        | cons x xs => simp at hnone
      · intro t ht
        cases prest with
        | nil => simp at ht
        | cons x xs =>
          have hx : x = t := by simpa using ht
          subst hx
          rw [← e3]; rfl

/-- Witness for C8: an omitted third token gives loop `true`, and the token
`banana` gives the comparison with `true`, namely `false`. -/
theorem aefr_C8_witness :
    ((true : Bool) = true) ∧ ((false : Bool) = (("banana".data) == trueLit)) :=
  ⟨(aefr_C8_thm ("0 Idle".data) 0 ("Idle".data) true (by decide)).1 (by decide),
   (aefr_C8_thm ("0 Idle banana".data) 0 ("Idle".data) false (by decide)).2
     ("banana".data) (by decide)⟩

/-- `push_to_mesh` spelled out as an append on both buffers. -/
theorem push_to_mesh_eq (self : SpineObjectM) (mesh : MeshM) (w_v uvs : List ℚ)
    (tris : List Nat) (slot : SlotM) (att_c : SpineColor) :
    push_to_mesh self mesh w_v uvs tris slot att_c
      = { vertices := mesh.vertices ++ pushedVertices self w_v uvs (slotAttColor slot att_c),
          indices := mesh.indices ++ tris.map (fun idx => mesh.vertices.length + idx) } :=
  rfl

/-- Claim C4: every triangle index appended by `push_to_mesh` equals its local
index plus the vertex count already in the batch; consequently every index a
slot contributes to the batch is at least the vertex count present before
that slot was drawn, and the earlier vertices are preserved in place — so a
later slot's indices never alias an earlier slot's vertices. -/
theorem aefr_C4_thm : ∀ (self : SpineObjectM) (mesh : MeshM) (w_v uvs : List ℚ)
    (tris : List Nat) (slot : SlotM) (att_c : SpineColor),
    (push_to_mesh self mesh w_v uvs tris slot att_c).indices
        = mesh.indices ++ tris.map (fun idx => mesh.vertices.length + idx) ∧
    (∀ j ∈ (paintSlot self mesh slot).indices.drop mesh.indices.length,
        mesh.vertices.length ≤ j) ∧
    (paintSlot self mesh slot).vertices.take mesh.vertices.length = mesh.vertices := by
  intro self mesh w_v uvs tris slot att_c
  have hpush : ∀ (wv2 uvs2 : List ℚ) (tris2 : List Nat) (c2 : SpineColor),
      (∀ j ∈ (push_to_mesh self mesh wv2 uvs2 tris2 slot c2).indices.drop
          mesh.indices.length, mesh.vertices.length ≤ j) := by
    intro wv2 uvs2 tris2 c2 j hj
    rw [push_to_mesh_eq] at hj
    simp only [List.drop_left] at hj
    rcases List.mem_map.mp hj with ⟨idx, _, e⟩
    rw [← e]
    exact Nat.le_add_right _ _
  have htake : ∀ (wv2 uvs2 : List ℚ) (tris2 : List Nat) (c2 : SpineColor),
      (push_to_mesh self mesh wv2 uvs2 tris2 slot c2).vertices.take
          mesh.vertices.length = mesh.vertices := by
    intro wv2 uvs2 tris2 c2
    rw [push_to_mesh_eq]
    exact List.take_left _ _
  refine ⟨rfl, ?_, ?_⟩
  · intro j hj
    rcases hatt : slot.attachment with _ | att
    · rw [paintSlot, hatt] at hj
      simp at hj
    · rcases att with ⟨wv, uvs2, c⟩ | ⟨wv, uvs2, tris2, c⟩ | _
      · rw [paintSlot, hatt] at hj
        exact hpush _ _ _ _ j hj
      · rw [paintSlot, hatt] at hj
        exact hpush _ _ _ _ j hj
      · rw [paintSlot, hatt] at hj
        simp at hj
  · rcases hatt : slot.attachment with _ | att
    · rw [paintSlot, hatt]
      exact List.take_length mesh.vertices
    · rcases att with ⟨wv, uvs2, c⟩ | ⟨wv, uvs2, tris2, c⟩ | _
      · rw [paintSlot, hatt]
        exact htake _ _ _ _
      · rw [paintSlot, hatt]
        exact htake _ _ _ _
      · rw [paintSlot, hatt]
        exact List.take_length mesh.vertices

/-- Witness for C4 on a concrete batch already holding two vertices: the
first index the region slot contributes is bounded below by that count. -/
theorem aefr_C4_witness : mesh2.vertices.length ≤ 2 :=
  (aefr_C4_thm demoObj mesh2 quadWV quadUV regionTris regionSlot whiteCol).2.1 2
    (by decide)

/-- Claim C6: slots without an attachment, or with an unrecognised attachment
kind, contribute no vertices and raise no error; every vertex a slot does
contribute has screen position `(x × scale + position.x, -y × scale +
position.y)` for the corresponding world-vertex pair `(x, y)` of its
attachment. -/
theorem aefr_C6_thm : ∀ (self : SpineObjectM) (mesh : MeshM) (slot : SlotM),
    (slot.attachment = none → paintSlot self mesh slot = mesh) ∧
    (slot.attachment = some .other → paintSlot self mesh slot = mesh) ∧
    (∀ v ∈ (paintSlot self mesh slot).vertices.drop mesh.vertices.length,
        ∃ i : Nat,
          v.pos = ((slotWorldVerts slot).getD (i * 2) 0 * self.scale + self.position.1,
                   -((slotWorldVerts slot).getD (i * 2 + 1) 0) * self.scale
                     + self.position.2)) := by
  intro self mesh slot
  have hgen : ∀ (wv2 uvs2 : List ℚ) (tris2 : List Nat) (c2 : SpineColor),
      ∀ v ∈ (push_to_mesh self mesh wv2 uvs2 tris2 slot c2).vertices.drop
          mesh.vertices.length,
        ∃ i : Nat,
          v.pos = (wv2.getD (i * 2) 0 * self.scale + self.position.1,
                   -(wv2.getD (i * 2 + 1) 0) * self.scale + self.position.2) := by
    intro wv2 uvs2 tris2 c2 v hv
    rw [push_to_mesh_eq] at hv
    simp only [List.drop_left] at hv
    unfold pushedVertices at hv
    rcases List.mem_map.mp hv with ⟨i, _, e⟩
    refine ⟨i, ?_⟩
    rw [← e]
  refine ⟨fun h => by rw [paintSlot, h], fun h => by rw [paintSlot, h], ?_⟩
  intro v hv
  rcases hatt : slot.attachment with _ | att
  · rw [paintSlot, hatt] at hv
    simp at hv
  · rcases att with ⟨wv, uvs2, c⟩ | ⟨wv, uvs2, tris2, c⟩ | _
    · rw [paintSlot, hatt] at hv
      have := hgen (regionSlice8 wv) uvs2 regionTris c v hv
      rw [slotWorldVerts, hatt]
      exact this
    · rw [paintSlot, hatt] at hv
      have := hgen wv uvs2 tris2 c v hv
      rw [slotWorldVerts, hatt]
      exact this
    · rw [paintSlot, hatt] at hv
      simp at hv

/-- Witness for C6 at a concrete one-vertex mesh attachment: the produced
vertex `(12, 17)` is the transform of the world pair `(2, 3)` under scale 1
and position `(10, 20)`. -/
theorem aefr_C6_witness :
    ∃ i : Nat,
      (({ pos := (12, 17), uv := (0, 0),
          color := (255, 255, 255, 255) } : MVertex).pos
        = ((slotWorldVerts demoMeshSlot).getD (i * 2) 0 * demoObj.scale
             + demoObj.position.1,
           -((slotWorldVerts demoMeshSlot).getD (i * 2 + 1) 0) * demoObj.scale
             + demoObj.position.2)) :=
  (aefr_C6_thm demoObj emptyMesh demoMeshSlot).2.2
    { pos := (12, 17), uv := (0, 0), color := (255, 255, 255, 255) }
    (by norm_num [paintSlot, demoMeshSlot, push_to_mesh, pushedVertices,
      slotAttColor, whiteCol, demoObj, emptyMesh, toU8]
        <;> decide)

/-- Claim C5 evaluation: the color the code hands to
`from_rgba_premultiplied` at slot tint `(1,1,1,0.5)` × attachment tint
`(1,1,1,1)` has RGB `(255,255,255)` and alpha `127` — the RGB channels are
not multiplied by the alpha, although an actually premultiplied red channel
would be `toU8 (0.5 × 255) = 127`; with both tints fully white the output is
opaque white. -/
theorem aefr_C5_eval :
    slotAttColor halfMeshSlot whiteCol = (255, 255, 255, 127) ∧
    ((paintSlot demoObj emptyMesh halfMeshSlot).vertices.getD 0 vtx0).color
      = (255, 255, 255, 127) ∧
    toU8 ((1 : ℚ) * 1 * (1 / 2) * 255) = 127 ∧
    slotAttColor regionSlot whiteCol = (255, 255, 255, 255) ∧
    (255 : Nat) ≠ toU8 ((1 : ℚ) * 1 * (1 / 2) * 255) := by
  refine ⟨?_, ?_, ?_, ?_, ?_⟩
  · norm_num [slotAttColor, halfMeshSlot, whiteCol, halfAlphaCol, toU8] <;> decide
  · norm_num [paintSlot, halfMeshSlot, push_to_mesh, pushedVertices,
      slotAttColor, whiteCol, halfAlphaCol, demoObj, emptyMesh, toU8] <;> decide
  · norm_num [toU8] <;> decide
  · norm_num [slotAttColor, regionSlot, whiteCol, toU8] <;> decide
  · norm_num [toU8] <;> decide

/-- The console dispatcher, case by case: the sent command is `none`, or
comes from exactly one keyword branch. -/
theorem parse_sent_cases (cs : List Char) :
    (parse_and_send_command cs).sent = none ∨
    (∃ rest, stripKw loadKw (trim cs) = some rest ∧
       (parse_and_send_command cs).sent = parseLoadBranch rest) ∨
    (∃ rest, stripKw animKw (trim cs) = some rest ∧
       (parse_and_send_command cs).sent = parseAnimBranch rest) ∨
    (∃ path, stripKw bgmKw (trim cs) = some path ∧
       (parse_and_send_command cs).sent = some (.PlayBgm (stripQuotes path))) ∨
    ((parse_and_send_command cs).sent = some .StopBgm) ∨
    (∃ rest, stripKw talkKw (trim cs) = some rest ∧
       (parse_and_send_command cs).sent = parseTalkBranch rest) ∨
    (∃ path, stripKw bgKw (trim cs) = some path ∧
       (parse_and_send_command cs).sent = some (.LoadBackground (stripQuotes path))) := by
  unfold parse_and_send_command
  dsimp only
  split
  · exact Or.inl rfl
  · split
    · rename_i rest heq
      exact Or.inr (Or.inl ⟨rest, heq, rfl⟩)
    · split
      · rename_i rest heq
        exact Or.inr (Or.inr (Or.inl ⟨rest, heq, rfl⟩))
      · split
        · rename_i rest heq
          exact Or.inr (Or.inr (Or.inr (Or.inl ⟨rest, heq, rfl⟩)))
        · split
          · exact Or.inr (Or.inr (Or.inr (Or.inr (Or.inl rfl))))
          · split
            · rename_i rest heq
              exact Or.inr (Or.inr (Or.inr (Or.inr (Or.inr (Or.inl ⟨rest, heq, rfl⟩)))))
            · split
              · rename_i rest heq
                exact Or.inr (Or.inr (Or.inr (Or.inr (Or.inr (Or.inr ⟨rest, heq, rfl⟩)))))
              · split
                · exact Or.inl rfl
                · exact Or.inl rfl

/-- Claim C10: a `TALK` line is enqueued as a `Dialogue` exactly when the
pipe-split of its remainder has exactly three fields (otherwise nothing is
sent), a sent `Dialogue` always comes from the `TALK` branch, and applying a
`Dialogue` command installs speaker, affiliation and target text and resets
`visible_count` to zero. -/
theorem aefr_C10_thm : ∀ (rest p0 p1 p2 : List Char) (st : AppState) (fx : FxEnv),
    (parseTalkBranch rest = some (.Dialogue p0 p1 p2) ↔
       splitSep '|' rest = [p0, p1, p2]) ∧
    ((splitSep '|' rest).length ≠ 3 → parseTalkBranch rest = none) ∧
    (∀ cs, (parse_and_send_command cs).sent = some (.Dialogue p0 p1 p2) →
       ∃ rest2, stripKw talkKw (trim cs) = some rest2 ∧
         parseTalkBranch rest2 = some (.Dialogue p0 p1 p2)) ∧
    ((applyCommand st fx (.Dialogue p0 p1 p2)).1.current_name = p0 ∧
     (applyCommand st fx (.Dialogue p0 p1 p2)).1.current_affiliation = p1 ∧
     (applyCommand st fx (.Dialogue p0 p1 p2)).1.target_chars = p2 ∧
     (applyCommand st fx (.Dialogue p0 p1 p2)).1.visible_count = 0 ∧
     (applyCommand st fx (.Dialogue p0 p1 p2)).2 = []) := by
  intro rest p0 p1 p2 st fx
  refine ⟨?_, ?_, ?_, rfl, rfl, rfl, rfl, rfl⟩
  · constructor
    · intro h
      unfold parseTalkBranch at h
      split at h
      · rename_i q0 q1 q2 heq
        have := Option.some.inj h
        injection this with e1 e2 e3
        rw [heq, e1, e2, e3]
      · exact absurd h (by simp)
    · intro h
      unfold parseTalkBranch
      rw [h]
  · intro hlen
    unfold parseTalkBranch
    split
    · rename_i q0 q1 q2 heq
      rw [heq] at hlen
      simp at hlen
    · rfl
  · intro cs h
    rcases parse_sent_cases cs with h0 | ⟨r, hs, he⟩ | ⟨r, hs, he⟩ | ⟨r, hs, he⟩
      | h4 | ⟨r, hs, he⟩ | ⟨r, hs, he⟩
    · rw [h0] at h; exact absurd h (by simp)
    · rw [he] at h
      rcases parseLoadBranch_shape r _ h with ⟨i, p, e⟩
      exact absurd e (by simp)
    · rw [he] at h
      rcases parseAnimBranch_shape r _ h with ⟨i, n2, b2, e⟩
      exact absurd e (by simp)
    · rw [he] at h
      exact absurd (Option.some.inj h) (by simp)
    · rw [h4] at h
      exact absurd (Option.some.inj h) (by simp)
    · rw [he] at h
      exact ⟨r, hs, h⟩
    · rw [he] at h
      exact absurd (Option.some.inj h) (by simp)

/-- Witness for C10 at the spec's example line: `Alice|Factionless|Hello`
splits into exactly three fields and is sent as the matching `Dialogue`,
whose application resets the typewriter. -/
theorem aefr_C10_witness :
    parseTalkBranch ("Alice|Factionless|Hello".data)
      = some (.Dialogue ("Alice".data) ("Factionless".data) ("Hello".data)) ∧
    (applyCommand twState fxNone
        (.Dialogue ("Alice".data) ("Factionless".data) ("Hello".data))).1.visible_count
      = 0 :=
  ⟨(aefr_C10_thm ("Alice|Factionless|Hello".data) ("Alice".data)
      ("Factionless".data) ("Hello".data) twState fxNone).1.mpr (by decide),
   (aefr_C10_thm ("Alice|Factionless|Hello".data) ("Alice".data)
      ("Factionless".data) ("Hello".data) twState fxNone).2.2.2.2.2.2.1⟩

/-- Claim C9: a failure in any step of `load_async` makes the whole load
fail (the `none` outcomes are exactly the step failures), in which case the
background thread reports exactly one `Log` command whose application leaves
the slot table unchanged — the previously loaded entity, if any, stays. -/
theorem aefr_C9_thm : ∀ (env : LoadEnv) (slot_idx : Nat) (path : List Char)
    (st : AppState) (fx : FxEnv),
    (load_async env = none ↔
      (env.atlas = none ∨ env.atlas.bind (fun a => a.pages.head?) = none ∨
       env.parentDir = none ∨ env.image = none ∨ env.skeletonData = none)) ∧
    (load_async env = none →
      loadThreadResult env slot_idx path = .Log (loadFailPre ++ path) ∧
      (applyCommand st fx (loadThreadResult env slot_idx path)).1.characters
          = st.characters ∧
      (applyCommand st fx (loadThreadResult env slot_idx path)).1.console_logs
          = st.console_logs ++ [loadFailPre ++ path] ∧
      (applyCommand st fx (loadThreadResult env slot_idx path)).2 = []) := by
  intro env slot_idx path st fx
  constructor
  · rcases env with ⟨atl, pd, im, sk⟩
    rcases atl with _ | ⟨pages⟩
    · simp [load_async]
    · rcases pages with _ | ⟨pg, pgs⟩
      · simp [load_async]
      · rcases pd with _ | d <;> rcases im with _ | img <;> rcases sk with _ | skel <;>
          simp [load_async]
  · intro h
    have ht : loadThreadResult env slot_idx path = .Log (loadFailPre ++ path) := by
      unfold loadThreadResult
      rw [h]
    refine ⟨ht, ?_, ?_, ?_⟩ <;> rw [ht] <;> rfl

/-- Witness for C9 at a concrete environment whose atlas parse fails. -/
theorem aefr_C9_witness :
    loadThreadResult failEnv 0 ("chars/hina".data)
      = .Log (loadFailPre ++ ("chars/hina".data)) ∧
    (applyCommand twState fxNone
        (loadThreadResult failEnv 0 ("chars/hina".data))).1.characters
      = twState.characters :=
  ⟨((aefr_C9_thm failEnv 0 ("chars/hina".data) twState fxNone).2 rfl).1,
   ((aefr_C9_thm failEnv 0 ("chars/hina".data) twState fxNone).2 rfl).2.1⟩

/-- One typewriter frame never changes the target text or the speed. -/
theorem tw_step_fields (st : AppState) (dt : ℚ) :
    (typewriter_update st dt).target_chars = st.target_chars ∧
    (typewriter_update st dt).type_speed = st.type_speed := by
  unfold typewriter_update
  dsimp only
  split
  · split
    · exact ⟨rfl, rfl⟩
    · exact ⟨rfl, rfl⟩
  · exact ⟨rfl, rfl⟩

/-- One typewriter frame never decreases `visible_count`. -/
theorem tw_step_mono (st : AppState) (dt : ℚ) :
    st.visible_count ≤ (typewriter_update st dt).visible_count := by
  unfold typewriter_update
  dsimp only
  split
  · split
    · exact Nat.le_succ _
    · exact Nat.le_refl _
  · exact Nat.le_refl _

/-- One typewriter frame reveals at most one character. -/
theorem tw_step_le_succ (st : AppState) (dt : ℚ) :
    (typewriter_update st dt).visible_count ≤ st.visible_count + 1 := by
  unfold typewriter_update
  dsimp only
  split
  · split
    · exact Nat.le_refl _
    · exact Nat.le_succ _
  · exact Nat.le_succ _

/-- One typewriter frame keeps `visible_count` within the target length. -/
theorem tw_step_cap (st : AppState) (dt : ℚ)
    (h : st.visible_count ≤ st.target_chars.length) :
    (typewriter_update st dt).visible_count ≤ st.target_chars.length := by
  unfold typewriter_update
  dsimp only
  split
  · split
    · rename_i hlt _
      exact hlt
    · exact h
  · exact h

/-- `visible_count` is monotone over any frame sequence. -/
theorem tw_run_mono : ∀ (dts : List ℚ) (st : AppState),
    st.visible_count ≤ (typewriterRun st dts).visible_count := by
  intro dts
  induction dts with
  | nil => intro st; exact Nat.le_refl _
  | cons d rest ih =>
    intro st
    exact le_trans (tw_step_mono st d) (ih (typewriter_update st d))

/-- `visible_count` stays within the target length over any frame sequence. -/
theorem tw_run_cap : ∀ (dts : List ℚ) (st : AppState),
    st.visible_count ≤ st.target_chars.length →
    (typewriterRun st dts).visible_count ≤ st.target_chars.length := by
  intro dts
  induction dts with
  | nil => intro st h; exact h
  | cons d rest ih =>
    intro st h
    have hc := tw_step_cap st d h
    have hf := (tw_step_fields st d).1
    have := ih (typewriter_update st d) (by rw [hf]; exact hc)
    rw [hf] at this
    exact this

/-- After enough frames, each exceeding the reveal interval, the text is
fully revealed. -/
theorem tw_run_full : ∀ (dts : List ℚ) (st : AppState),
    0 ≤ st.type_timer → 0 ≤ st.type_speed →
    (∀ d ∈ dts, st.type_speed < d) →
    st.visible_count ≤ st.target_chars.length →
    st.target_chars.length ≤ st.visible_count + dts.length →
    (typewriterRun st dts).visible_count = st.target_chars.length := by
  intro dts
  induction dts with
  | nil =>
    intro st h0 h1 h2 h3 h4
    simp only [typewriterRun, List.foldl_nil]
    simp only [List.length_nil, Nat.add_zero] at h4
    omega
  | cons d rest ih =>
    intro st h0 h1 h2 h3 h4
    simp only [List.length_cons] at h4
    by_cases hv : st.visible_count < st.target_chars.length
    · have hd : st.type_speed < st.type_timer + d := by
        have := h2 d (List.mem_cons_self d rest)
        linarith
      have hstep : typewriter_update st d = { st with visible_count := st.visible_count + 1, type_timer := 0 } := by
        unfold typewriter_update
        rw [if_pos hv]
        dsimp only
        rw [if_pos hd]
      have hrun : typewriterRun st (d :: rest)
          = typewriterRun (typewriter_update st d) rest := rfl
      rw [hrun]
      have hfld := tw_step_fields st d
      have hvis : (typewriter_update st d).visible_count = st.visible_count + 1 := by
        rw [hstep]
      have htmr : (typewriter_update st d).type_timer = 0 := by rw [hstep]
      have hres := ih (typewriter_update st d)
        (by rw [htmr]) (by rw [hfld.2]; exact h1)
        (by intro d2 hd2; rw [hfld.2]; exact h2 d2 (List.mem_cons_of_mem d hd2))
        (by rw [hvis, hfld.1]; omega) (by rw [hvis, hfld.1]; omega)
      rw [hfld.1] at hres
      exact hres
    · have hstep : typewriter_update st d = st := by
        unfold typewriter_update
        rw [if_neg hv]
      have hrun : typewriterRun st (d :: rest) = typewriterRun st rest := by
        show typewriterRun (typewriter_update st d) rest = typewriterRun st rest
        rw [hstep]
      rw [hrun]
      exact ih st h0 h1 (fun d2 hd2 => h2 d2 (List.mem_cons_of_mem d hd2)) h3 (by omega)

/-- Claim C1 (amended): the typewriter reveals at most one character per
frame — each frame adds `dt` to the timer and, once the timer exceeds the
reveal interval and text remains, reveals exactly one character and resets
the timer to zero; `visible_count` is monotonically non-decreasing, never
exceeds the target length, and reaches it after any sequence of at least
`len(target)` frames whose `dt` each exceeds the reveal interval. -/
theorem aefr_C1_amended_thm :
    (∀ (st : AppState) (dts : List ℚ),
        st.visible_count ≤ (typewriterRun st dts).visible_count) ∧
    (∀ (st : AppState) (dt : ℚ),
        (typewriter_update st dt).visible_count ≤ st.visible_count + 1) ∧
    (∀ (st : AppState) (dts : List ℚ),
        st.visible_count ≤ st.target_chars.length →
        (typewriterRun st dts).visible_count ≤ st.target_chars.length) ∧
    (∀ (st : AppState) (dts : List ℚ),
        0 ≤ st.type_timer → 0 ≤ st.type_speed →
        (∀ d ∈ dts, st.type_speed < d) →
        st.visible_count ≤ st.target_chars.length →
        st.target_chars.length ≤ st.visible_count + dts.length →
        (typewriterRun st dts).visible_count = st.target_chars.length) :=
  ⟨fun st dts => tw_run_mono dts st, tw_step_le_succ,
   fun st dts => tw_run_cap dts st, fun st dts => tw_run_full dts st⟩

/-- Witness for C1's amended full-reveal: two frames of 1 s each reveal the
two-character target completely. -/
theorem aefr_C1_witness :
    (typewriterRun twState [1, 1]).visible_count = twState.target_chars.length :=
  aefr_C1_amended_thm.2.2.2 twState [1, 1]
    (by norm_num [twState]) (by norm_num [twState])
    (by intro d hd; rcases List.mem_pair.mp hd with h | h <;> rw [h] <;> norm_num [twState])
    (by decide) (by decide)

/-- Counterexample to C1 as stated: with a 0.03 s reveal interval and a
two-character target, a single frame of `dt = 1` has cumulative time `1 ≥
2 × 0.03`, yet only one character is visible — the code reveals at most one
character per frame and resets (rather than decrements) the timer, so there
is no catch-up. -/
theorem aefr_C1_cex :
    (2 : ℚ) * (3 / 100) ≤ 1 ∧
    twState.type_speed = 3 / 100 ∧
    twState.target_chars.length = 2 ∧
    (typewriterRun twState [1]).visible_count = 1 ∧
    (typewriterRun twState [1]).visible_count ≠ twState.target_chars.length := by
  have hv : (typewriterRun twState [1]).visible_count = 1 := by
    norm_num [typewriterRun, typewriter_update, twState]
  refine ⟨by norm_num, rfl, by decide, hv, ?_⟩
  rw [hv]
  decide

/-- A list ASCII-case-equal to a four-character keyword has exactly four
characters with matching lower-cased values. -/
theorem eqIC_four {t : List Char} {k0 k1 k2 k3 : Char}
    (h : eqIC t [k0, k1, k2, k3] = true) :
    ∃ a b c d, t = [a, b, c, d] ∧ lowerAscii a = lowerAscii k0 ∧
      lowerAscii b = lowerAscii k1 ∧ lowerAscii c = lowerAscii k2 ∧
      lowerAscii d = lowerAscii k3 := by
  unfold eqIC at h
  have h2 := eq_of_beq h
  rcases t with _ | ⟨a, _ | ⟨b, _ | ⟨c, _ | ⟨d, _ | ⟨e, t2⟩⟩⟩⟩⟩ <;> simp [List.map] at h2
  exact ⟨a, b, c, d, rfl, h2.1, h2.2.1, h2.2.2.1, h2.2.2.2⟩

/-- An input whose trimmed form equals `STOP` up to ASCII case always sends
`StopBgm`, whatever the letter case. -/
theorem stop_case_ci (cs : List Char) (h : eqIC (trim cs) stopKw = true) :
    (parse_and_send_command cs).sent = some AppCommand.StopBgm := by
  obtain ⟨a, b, c, d, ht, ha, hb, hc, hd⟩ := eqIC_four (h : eqIC (trim cs) (['S', 'T', 'O', 'P']) = true)
  have ha' : lowerAscii a = 's' := ha.trans (by decide)
  have haB : ('B' == a) = false := by
    rw [beq_eq_false_iff_ne]
    intro e
    rw [← e] at ha'
    exact absurd ha' (by decide)
  rw [ht] at h
  unfold parse_and_send_command
  rw [ht]
  simp [stripKw, List.isPrefixOf, haB, h]

/-- An input whose trimmed form equals `HELP` up to ASCII case sends nothing
and prints the usage line, whatever the letter case. -/
theorem help_case_ci (cs : List Char) (h : eqIC (trim cs) helpKw = true) :
    (parse_and_send_command cs).sent = none ∧
    (parse_and_send_command cs).logs = ['>' :: ' ' :: trim cs, helpMsg] := by
  obtain ⟨a, b, c, d, ht, ha, hb, hc, hd⟩ := eqIC_four (h : eqIC (trim cs) (['H', 'E', 'L', 'P']) = true)
  have ha' : lowerAscii a = 'h' := ha.trans (by decide)
  have hb' : lowerAscii b = 'e' := hb.trans (by decide)
  have hc' : lowerAscii c = 'l' := hc.trans (by decide)
  have hd' : lowerAscii d = 'p' := hd.trans (by decide)
  have haB : ('B' == a) = false := by
    rw [beq_eq_false_iff_ne]
    intro e
    rw [← e] at ha'
    exact absurd ha' (by decide)
  have haT : ('T' == a) = false := by
    rw [beq_eq_false_iff_ne]
    intro e
    rw [← e] at ha'
    exact absurd ha' (by decide)
  have hstop : eqIC [a, b, c, d] stopKw = false := by
    unfold eqIC
    simp [List.map, ha', hb', hc', hd']
    decide
  rw [ht] at h
  unfold parse_and_send_command
  rw [ht]
  simp [stripKw, List.isPrefixOf, haB, haT, hstop, h]

/-- A sent `RequestLoad` requires the exact, case-sensitive `LOAD ` prefix. -/
theorem requestLoad_needs_kw (cs : List Char) (i : Nat) (p : List Char)
    (h : (parse_and_send_command cs).sent = some (.RequestLoad i p)) :
    loadKw.isPrefixOf (trim cs) = true := by
  rcases parse_sent_cases cs with h0 | ⟨r, hs, he⟩ | ⟨r, hs, he⟩ | ⟨r, hs, he⟩
    | h4 | ⟨r, hs, he⟩ | ⟨r, hs, he⟩
  · rw [h0] at h; exact absurd h (by simp)
  · exact (stripKw_some hs).1
  · rw [he] at h
    rcases parseAnimBranch_shape r _ h with ⟨i2, n2, b2, e⟩
    exact absurd e (by simp)
  · rw [he] at h
    exact absurd (Option.some.inj h) (by simp)
  · rw [h4] at h
    exact absurd (Option.some.inj h) (by simp)
  · rw [he] at h
    rcases parseTalkBranch_shape r _ h with ⟨a2, b2, c2, e⟩
    exact absurd e (by simp)
  · rw [he] at h
    exact absurd (Option.some.inj h) (by simp)

/-- A sent `SetAnimation` requires the exact, case-sensitive `ANIM ` prefix. -/
theorem setAnimation_needs_kw (cs : List Char) (i : Nat) (n : List Char) (b : Bool)
    (h : (parse_and_send_command cs).sent = some (.SetAnimation i n b)) :
    animKw.isPrefixOf (trim cs) = true := by
  rcases parse_sent_cases cs with h0 | ⟨r, hs, he⟩ | ⟨r, hs, he⟩ | ⟨r, hs, he⟩
    | h4 | ⟨r, hs, he⟩ | ⟨r, hs, he⟩
  · rw [h0] at h; exact absurd h (by simp)
  · rw [he] at h
    rcases parseLoadBranch_shape r _ h with ⟨i2, p2, e⟩
    exact absurd e (by simp)
  · exact (stripKw_some hs).1
  · rw [he] at h
    exact absurd (Option.some.inj h) (by simp)
  · rw [h4] at h
    exact absurd (Option.some.inj h) (by simp)
  · rw [he] at h
    rcases parseTalkBranch_shape r _ h with ⟨a2, b2, c2, e⟩
    exact absurd e (by simp)
  · rw [he] at h
    exact absurd (Option.some.inj h) (by simp)

/-- A sent `PlayBgm` requires the exact, case-sensitive `BGM ` prefix. -/
theorem playBgm_needs_kw (cs : List Char) (p : List Char)
    (h : (parse_and_send_command cs).sent = some (.PlayBgm p)) :
    bgmKw.isPrefixOf (trim cs) = true := by
  rcases parse_sent_cases cs with h0 | ⟨r, hs, he⟩ | ⟨r, hs, he⟩ | ⟨r, hs, he⟩
    | h4 | ⟨r, hs, he⟩ | ⟨r, hs, he⟩
  · rw [h0] at h; exact absurd h (by simp)
  · rw [he] at h
    rcases parseLoadBranch_shape r _ h with ⟨i2, p2, e⟩
    exact absurd e (by simp)
  · rw [he] at h
    rcases parseAnimBranch_shape r _ h with ⟨i2, n2, b2, e⟩
    exact absurd e (by simp)
  · exact (stripKw_some hs).1
  · rw [h4] at h
    exact absurd (Option.some.inj h) (by simp)
  · rw [he] at h
    rcases parseTalkBranch_shape r _ h with ⟨a2, b2, c2, e⟩
    exact absurd e (by simp)
  · rw [he] at h
    exact absurd (Option.some.inj h) (by simp)

/-- A sent `Dialogue` requires the exact, case-sensitive `TALK ` prefix. -/
theorem dialogue_needs_kw (cs : List Char) (a b c : List Char)
    (h : (parse_and_send_command cs).sent = some (.Dialogue a b c)) :
    talkKw.isPrefixOf (trim cs) = true := by
  rcases parse_sent_cases cs with h0 | ⟨r, hs, he⟩ | ⟨r, hs, he⟩ | ⟨r, hs, he⟩
    | h4 | ⟨r, hs, he⟩ | ⟨r, hs, he⟩
  · rw [h0] at h; exact absurd h (by simp)
  · rw [he] at h
    rcases parseLoadBranch_shape r _ h with ⟨i2, p2, e⟩
    exact absurd e (by simp)
  · rw [he] at h
    rcases parseAnimBranch_shape r _ h with ⟨i2, n2, b2, e⟩
    exact absurd e (by simp)
  · rw [he] at h
    exact absurd (Option.some.inj h) (by simp)
  · rw [h4] at h
    exact absurd (Option.some.inj h) (by simp)
  · exact (stripKw_some hs).1
  · rw [he] at h
    exact absurd (Option.some.inj h) (by simp)

/-- A sent `LoadBackground` requires the exact, case-sensitive `BG ` prefix. -/
theorem loadBackground_needs_kw (cs : List Char) (p : List Char)
    (h : (parse_and_send_command cs).sent = some (.LoadBackground p)) :
    bgKw.isPrefixOf (trim cs) = true := by
  rcases parse_sent_cases cs with h0 | ⟨r, hs, he⟩ | ⟨r, hs, he⟩ | ⟨r, hs, he⟩
    | h4 | ⟨r, hs, he⟩ | ⟨r, hs, he⟩
  · rw [h0] at h; exact absurd h (by simp)
  · rw [he] at h
    rcases parseLoadBranch_shape r _ h with ⟨i2, p2, e⟩
    exact absurd e (by simp)
  · rw [he] at h
    rcases parseAnimBranch_shape r _ h with ⟨i2, n2, b2, e⟩
    exact absurd e (by simp)
  · rw [he] at h
    exact absurd (Option.some.inj h) (by simp)
  · rw [h4] at h
    exact absurd (Option.some.inj h) (by simp)
  · rw [he] at h
    rcases parseTalkBranch_shape r _ h with ⟨a2, b2, c2, e⟩
    exact absurd e (by simp)
  · exact (stripKw_some hs).1

/-- Claim C7 (amended): only `STOP` and `HELP` are matched ignoring ASCII
case; `LOAD`, `ANIM`, `BGM`, `TALK` and `BG` require the exact upper-case
keyword (with its trailing space) as a case-sensitive prefix, so an input
differing from those keywords only in letter case is not parsed as the
command. -/
theorem aefr_C7_amended_thm :
    (∀ cs, eqIC (trim cs) stopKw = true →
       (parse_and_send_command cs).sent = some .StopBgm) ∧
    (∀ cs, eqIC (trim cs) helpKw = true →
       (parse_and_send_command cs).sent = none ∧
       (parse_and_send_command cs).logs = ['>' :: ' ' :: trim cs, helpMsg]) ∧
    (∀ cs i p, (parse_and_send_command cs).sent = some (.RequestLoad i p) →
       loadKw.isPrefixOf (trim cs) = true) ∧
    (∀ cs i n b, (parse_and_send_command cs).sent = some (.SetAnimation i n b) →
       animKw.isPrefixOf (trim cs) = true) ∧
    (∀ cs p, (parse_and_send_command cs).sent = some (.PlayBgm p) →
       bgmKw.isPrefixOf (trim cs) = true) ∧
    (∀ cs a b c, (parse_and_send_command cs).sent = some (.Dialogue a b c) →
       talkKw.isPrefixOf (trim cs) = true) ∧
    (∀ cs p, (parse_and_send_command cs).sent = some (.LoadBackground p) →
       bgKw.isPrefixOf (trim cs) = true) :=
  ⟨stop_case_ci, help_case_ci, requestLoad_needs_kw, setAnimation_needs_kw,
   playBgm_needs_kw, dialogue_needs_kw, loadBackground_needs_kw⟩

/-- Witness for C7's amended statement: a mixed-case `sToP` still stops the
music, and a parsed `LOAD` line indeed carries the exact `LOAD ` prefix. -/
theorem aefr_C7_witness :
    (parse_and_send_command ("sToP".data)).sent = some AppCommand.StopBgm ∧
    loadKw.isPrefixOf (trim ("LOAD 0 x".data)) = true :=
  ⟨aefr_C7_amended_thm.1 ("sToP".data) (by decide),
   aefr_C7_amended_thm.2.2.1 ("LOAD 0 x".data) 0 ("x".data) (by decide)⟩

/-- Counterexample to C7 as stated: `load 0 x`, which differs from the
`LOAD` keyword only in letter case, sends no command at all, while
`LOAD 0 x` sends the `RequestLoad`. -/
theorem aefr_C7_cex :
    (parse_and_send_command ("load 0 x".data)).sent = none ∧
    (parse_and_send_command ("LOAD 0 x".data)).sent
      = some (.RequestLoad 0 ("x".data)) :=
  ⟨by decide, by decide⟩

end AEFR
